/-
Verification of the HybridStorage component (src/bootstrap.js, the
dht/storage/hybridStorage.js segment): an LRU + TTL in-memory cache layered
over a persistent LevelDB engine.

Shallow embedding conventions:
  * JS `Map` objects (`cache`, `cacheTimestamps`) are association lists with
    `mget` / `mset` / `mdel` / `mhas` mirroring `Map.get` / `Map.set` /
    `Map.delete` / `Map.has`; `Map.set` keeps the position of an existing key
    and appends a new one, matching JS insertion order.
  * The `lruList` array is a `List String`; `indexOf` + `splice(i, 1)` is
    `lerase` (remove first occurrence), `push` is `++ [key]`.
  * `Date.now()` is an explicit `now : Nat` argument per call; the freshness
    test `Date.now() - timestamp <= ttl` becomes `now - ts ≤ ttl` (truncated
    subtraction agrees with the JS comparison outcome for any `ts`, since a
    negative difference and `0` are both `≤ ttl`).
  * The persistent engine is the `db` association list inside the state;
    each operation takes an `engineFails : Bool` oracle deciding whether the
    engine call made by that operation fails with an I/O error.  The engine
    reports "not found" on `get` from `db` contents; `del` on an absent key
    is a successful no-op (LevelDB `del` semantics).  Engine invocations are
    returned as a trace (`List EngineCall`) so "does not touch the engine"
    is statable.
  * JS exceptions become `Except StorageError`; mutations performed before a
    throw persist, so every operation returns the updated state alongside
    the result.  The error constructors record the cause that the source
    wraps into its message strings (`Database is closed`, `Key not found`,
    I/O wrap, `dbPath is required`).
  * `options.cacheSize || 1000` (`||` on a number) maps `0` and absent to
    the default; numeric options are modelled as `Option Nat`.
-/
import Mathlib

/-- Errors of the storage layer, per the source's throw sites: `configError`
is `dbPath is required for HybridStorage`, `closedError` is
`Database is closed`, `notFound k` is `Key not found: k` (LEVEL_NOT_FOUND),
`ioFailure` is any other engine failure (wrapped message). -/
inductive StorageError where
  | configError : StorageError
  | closedError : StorageError
  | notFound : String → StorageError
  | ioFailure : StorageError
deriving DecidableEq, Repr

/-- A persistent-engine invocation, recorded so theorems can state that an
operation did or did not touch the engine. -/
inductive EngineCall where
  | getCall : String → EngineCall
  | putCall : String → EngineCall
  | delCall : String → EngineCall
  | keysCall : EngineCall
  | closeCall : EngineCall
deriving DecidableEq, Repr

/-- Model of `Map.prototype.get`: first binding of the key, if any. -/
def mget {V : Type} : List (String × V) → String → Option V
  | [], _ => none
  | (j, w) :: t, k => if j = k then some w else mget t k

/-- Model of `Map.prototype.set`: update the existing binding in place, or
append a new one (JS maps preserve insertion order). -/
def mset {V : Type} : List (String × V) → String → V → List (String × V)
  | [], k, v => [(k, v)]
  | (j, w) :: t, k, v => if j = k then (k, v) :: t else (j, w) :: mset t k v

/-- Model of `Map.prototype.delete`: remove the binding of the key. -/
def mdel {V : Type} : List (String × V) → String → List (String × V)
  | [], _ => []
  | (j, w) :: t, k => if j = k then mdel t k else (j, w) :: mdel t k

/-- Model of `Map.prototype.has`. -/
def mhas {V : Type} (m : List (String × V)) (k : String) : Bool :=
  (mget m k).isSome

/-- Model of `array.indexOf(key)` followed by `array.splice(index, 1)` when
found: remove the first occurrence of the key. -/
def lerase : List String → String → List String
  | [], _ => []
  | a :: t, k => if a = k then t else a :: lerase t k

/-- The mutable state of a `HybridStorage` instance, values of type `V`
(the source stores arbitrary JSON-serialisable values): the three cache
structures, the open flag, the configuration, and the contents of the
persistent LevelDB engine the instance owns. -/
structure HybridStorage (V : Type) where
  dbPath : String
  cacheSize : Nat
  ttl : Nat
  cache : List (String × V)
  cacheTimestamps : List (String × Nat)
  lruList : List String
  db : List (String × V)
  isOpen : Bool
deriving DecidableEq, Repr

/-- The recognised construction options: `dbPath` (required, a missing or
empty string is falsy in `!options?.dbPath`), `cacheSize` and `ttl`
(numeric, combined with their defaults through JS `||`). -/
structure StorageOptions where
  dbPath : Option String
  cacheSize : Option Nat
  ttl : Option Nat
deriving DecidableEq, Repr

/-- Model of `x || d` for a numeric option: absent and `0` (the falsy
number) fall back to the default. -/
def orDefault : Option Nat → Nat → Nat
  | none, d => d
  | some n, d => if n = 0 then d else n

namespace HybridStorage

variable {V : Type}

/-- The constructor: throws `configError` when `!options?.dbPath` (absent or
empty), otherwise builds an open instance with empty cache structures.
`dbInit` is whatever the LevelDB directory already holds when opened. -/
def construct (options : StorageOptions) (dbInit : List (String × V)) :
    Except StorageError (HybridStorage V) :=
  match options.dbPath with
  | none => .error .configError
  | some p =>
    if p = "" then .error .configError
    else .ok { dbPath := p
               cacheSize := orDefault options.cacheSize 1000
               ttl := orDefault options.ttl 3600000
               cache := []
               cacheTimestamps := []
               lruList := []
               db := dbInit
               isOpen := true }

/-- Source `verifyDbOpen`: throws `Database is closed` when `!this.isOpen`. -/
def verifyDbOpen (s : HybridStorage V) : Except StorageError Unit :=
  if s.isOpen then .ok () else .error .closedError

/-- The shared eviction step: `const lruKey = this.lruList[0]; if (lruKey)
{ delete it and shift }`.  Faithfully, `if (lruKey)` is false both for an
empty list (`undefined`) and for the empty-string key (falsy), in which
case nothing is evicted. -/
def evictOne (s : HybridStorage V) : HybridStorage V :=
  match s.lruList with
  | [] => s
  | lruKey :: rest =>
    if lruKey = "" then s
    else { s with cache := mdel s.cache lruKey
                  cacheTimestamps := mdel s.cacheTimestamps lruKey
                  lruList := rest }

/-- Source `addToCache`: evict the LRU head when the cache is at capacity
and the key is new, then insert the entry, stamp it `now`, and move the key
to the most-recently-used tail of `lruList`. -/
def addToCache (s : HybridStorage V) (key : String) (value : V) (now : Nat) :
    HybridStorage V :=
  let s1 := if s.cacheSize ≤ s.cache.length ∧ mhas s.cache key = false
            then evictOne s else s
  { s1 with cache := mset s1.cache key value
            cacheTimestamps := mset s1.cacheTimestamps key now
            lruList := lerase s1.lruList key ++ [key] }

/-- The cache removal shared by the stale-entry paths of `get`/`has` and by
`delete`: drop the key from `cache`, `cacheTimestamps`, and `lruList`. -/
def removeFromCache (s : HybridStorage V) (key : String) : HybridStorage V :=
  { s with cache := mdel s.cache key
           cacheTimestamps := mdel s.cacheTimestamps key
           lruList := lerase s.lruList key }

/-- Freshness test of the cached entry for `key` at time `now`:
`Date.now() - timestamp <= this.ttl` (a missing timestamp gives `NaN`,
whose comparison is false, hence `false` here). -/
def freshAt (s : HybridStorage V) (key : String) (now : Nat) : Bool :=
  match mget s.cacheTimestamps key with
  | some ts => now - ts ≤ s.ttl
  | none => false

/-- Source `put`: verify open, update the cache (`addToCache`), then write
through to the engine; an engine failure is wrapped and rethrown after the
cache was already updated. -/
def put (s : HybridStorage V) (key : String) (value : V) (now : Nat)
    (engineFails : Bool) :
    Except StorageError Unit × HybridStorage V × List EngineCall :=
  match verifyDbOpen s with
  | .error e => (.error e, s, [])
  | .ok _ =>
    let s1 := addToCache s key value now
    if engineFails then (.error .ioFailure, s1, [.putCall key])
    else (.ok (), { s1 with db := mset s1.db key value }, [.putCall key])

/-- The cache-miss tail of source `get` (from `const value = await
this.db.get(key)` on): read the engine, then evict the LRU head if at
capacity (same falsy guard) and admit the fetched value, pushing the key
onto the recency tail. -/
def getMiss (s : HybridStorage V) (key : String) (now : Nat)
    (engineFails : Bool) :
    Except StorageError V × HybridStorage V × List EngineCall :=
  if engineFails then (.error .ioFailure, s, [.getCall key])
  else
    match mget s.db key with
    | none => (.error (.notFound key), s, [.getCall key])
    | some v =>
      let s1 := if s.cacheSize ≤ s.cache.length then evictOne s else s
      (.ok v, { s1 with cache := mset s1.cache key v
                        cacheTimestamps := mset s1.cacheTimestamps key now
                        lruList := s1.lruList ++ [key] },
       [.getCall key])

/-- Source `get`: verify open; a fresh cache hit is promoted to
most-recently-used, its timestamp refreshed to `now`, and returned without
touching the engine; a stale hit is removed first; then fall through to the
engine read (`getMiss`). -/
def get (s : HybridStorage V) (key : String) (now : Nat)
    (engineFails : Bool) :
    Except StorageError V × HybridStorage V × List EngineCall :=
  match verifyDbOpen s with
  | .error e => (.error e, s, [])
  | .ok _ =>
    match mget s.cache key with
    | some v =>
      if freshAt s key now then
        (.ok v,
         { s with cacheTimestamps := mset s.cacheTimestamps key now
                  lruList := lerase s.lruList key ++ [key] },
         [])
      else getMiss (removeFromCache s key) key now engineFails
    | none => getMiss s key now engineFails

/-- Source `delete`: verify open, remove the key from all cache structures,
then issue the engine delete.  The engine's `del` succeeds whether or not
the key is present (LevelDB reports no "not found" on delete), failing only
on an injected I/O error. -/
def delete (s : HybridStorage V) (key : String) (engineFails : Bool) :
    Except StorageError Unit × HybridStorage V × List EngineCall :=
  match verifyDbOpen s with
  | .error e => (.error e, s, [])
  | .ok _ =>
    let s1 := removeFromCache s key
    if engineFails then (.error .ioFailure, s1, [.delCall key])
    else (.ok (), { s1 with db := mdel s1.db key }, [.delCall key])

/-- The engine-existence tail of source `has`: `await this.db.get(key)`
with `LEVEL_NOT_FOUND` mapped to `false`. -/
def hasMiss (s : HybridStorage V) (key : String) (engineFails : Bool) :
    Except StorageError Bool × HybridStorage V × List EngineCall :=
  if engineFails then (.error .ioFailure, s, [.getCall key])
  else
    match mget s.db key with
    | none => (.ok false, s, [.getCall key])
    | some _ => (.ok true, s, [.getCall key])

/-- Source `has`: verify open; a fresh cache hit answers `true` with no
engine call; a stale hit is removed; otherwise ask the engine. -/
def has (s : HybridStorage V) (key : String) (now : Nat)
    (engineFails : Bool) :
    Except StorageError Bool × HybridStorage V × List EngineCall :=
  match verifyDbOpen s with
  | .error e => (.error e, s, [])
  | .ok _ =>
    match mget s.cache key with
    | some _ =>
      if freshAt s key now then (.ok true, s, [])
      else hasMiss (removeFromCache s key) key engineFails
    | none => hasMiss s key engineFails

/-- Source `keys`: verify open, then enumerate the engine's keys. -/
def keys (s : HybridStorage V) (engineFails : Bool) :
    Except StorageError (List String) × HybridStorage V × List EngineCall :=
  match verifyDbOpen s with
  | .error e => (.error e, s, [])
  | .ok _ =>
    if engineFails then (.error .ioFailure, s, [.keysCall])
    else (.ok (s.db.map Prod.fst), s, [.keysCall])

/-- Source `close`: a no-op when already closed; otherwise close the engine
(whose failure is wrapped and leaves the instance open), mark closed, and
clear every cache structure. -/
def close (s : HybridStorage V) (engineFails : Bool) :
    Except StorageError Unit × HybridStorage V × List EngineCall :=
  if s.isOpen then
    if engineFails then (.error .ioFailure, s, [.closeCall])
    else (.ok (),
          { s with isOpen := false
                   cache := []
                   cacheTimestamps := []
                   lruList := [] },
          [.closeCall])
  else (.ok (), s, [])

end HybridStorage

/-- One public call together with its time and engine-failure oracle, for
reasoning about sequences of operations. -/
inductive Op (V : Type) where
  | put : String → V → Nat → Bool → Op V
  | get : String → Nat → Bool → Op V
  | del : String → Bool → Op V
  | has : String → Nat → Bool → Op V
  | keys : Bool → Op V
  | close : Bool → Op V

/-- The state reached after one public call (discarding result and trace). -/
def step {V : Type} (s : HybridStorage V) : Op V → HybridStorage V
  | .put k v now f => (s.put k v now f).2.1
  | .get k now f => (s.get k now f).2.1
  | .del k f => (s.delete k f).2.1
  | .has k now f => (s.has k now f).2.1
  | .keys f => (s.keys f).2.1
  | .close f => (s.close f).2.1

/-- The state reached after a sequence of public calls. -/
def run {V : Type} (s : HybridStorage V) (ops : List (Op V)) : HybridStorage V :=
  List.foldl step s ops

/-- An operation avoids the key `k` when it is not a `put` or `delete` of
`k` and not a `close` (such operations can never overwrite or drop the
durable binding of `k` nor shut the store). -/
def avoids {V : Type} (k : String) : Op V → Bool
  | .put j _ _ _ => decide (j ≠ k)
  | .del j _ => decide (j ≠ k)
  | .close _ => false
  | _ => true

/-- States reachable from a freshly constructed instance by public calls
whose persistent writes all succeed (`put` runs with a non-failing engine;
every other operation may fail freely). -/
inductive Reach {V : Type} : HybridStorage V → Prop where
  | init (options : StorageOptions) (dbInit : List (String × V))
      (s : HybridStorage V) :
      HybridStorage.construct options dbInit = .ok s → Reach s
  | putStep (s : HybridStorage V) (k : String) (v : V) (now : Nat) :
      Reach s → Reach (s.put k v now false).2.1
  | getStep (s : HybridStorage V) (k : String) (now : Nat) (f : Bool) :
      Reach s → Reach (s.get k now f).2.1
  | delStep (s : HybridStorage V) (k : String) (f : Bool) :
      Reach s → Reach (s.delete k f).2.1
  | hasStep (s : HybridStorage V) (k : String) (now : Nat) (f : Bool) :
      Reach s → Reach (s.has k now f).2.1
  | keysStep (s : HybridStorage V) (f : Bool) :
      Reach s → Reach (s.keys f).2.1
  | closeStep (s : HybridStorage V) (f : Bool) :
      Reach s → Reach (s.close f).2.1

/-- Every cached binding agrees with the persistent store. -/
def cacheSubDb {V : Type} (s : HybridStorage V) : Prop :=
  ∀ k v, mget s.cache k = some v → mget s.db k = some v

/-- The durable binding of `k` is `v`, the store is open, and any cached
binding of `k` agrees: the invariant carried between a successful
`put k v` and a later `get k` across operations that avoid `k`. -/
def keyInv {V : Type} (k : String) (v : V) (s : HybridStorage V) : Prop :=
  s.isOpen = true ∧ mget s.db k = some v ∧
    ∀ w, mget s.cache k = some w → w = v

/-- A concrete open instance (capacity 2, ttl 100) caching `a ↦ 7` stamped
at time 10, with the same binding durable, used to instantiate theorems at
a specific input. -/
def sampleStore : HybridStorage Nat :=
  { dbPath := "p"
    cacheSize := 2
    ttl := 100
    cache := [("a", 7)]
    cacheTimestamps := [("a", 10)]
    lruList := ["a"]
    db := [("a", 7)]
    isOpen := true }

/-- The same concrete instance after its open flag has been dropped, used
to instantiate closed-store theorems. -/
def sampleClosedStore : HybridStorage Nat :=
  { sampleStore with isOpen := false }

section MapLemmas

variable {V : Type}

theorem mget_mset_self (m : List (String × V)) (k : String) (v : V) :
    mget (mset m k v) k = some v := by
  induction m with
  | nil => simp [mset, mget]
  | cons p t ih =>
    obtain ⟨j, w⟩ := p
    by_cases h : j = k <;> simp [mset, mget, h, ih]

theorem mget_mset_ne (m : List (String × V)) (k j : String) (v : V)
    (h : j ≠ k) : mget (mset m k v) j = mget m j := by
  have hk : ¬ k = j := fun hh => h hh.symm
  induction m with
  | nil => simp [mset, mget, hk]
  | cons p t ih =>
    obtain ⟨a, w⟩ := p
    by_cases ha : a = k
    · have haj : ¬ a = j := by rw [ha]; exact hk
      simp [mset, mget, ha, haj, hk]
    · by_cases haj : a = j <;> simp [mset, mget, ha, haj, h, ih]

theorem mget_mdel_self (m : List (String × V)) (k : String) :
    mget (mdel m k) k = none := by
  induction m with
  | nil => simp [mdel, mget]
  | cons p t ih =>
    obtain ⟨a, w⟩ := p
    by_cases ha : a = k <;> simp [mdel, mget, ha, ih]

theorem mget_mdel_ne (m : List (String × V)) (k j : String) (h : j ≠ k) :
    mget (mdel m k) j = mget m j := by
  have hk : ¬ k = j := fun hh => h hh.symm
  induction m with
  | nil => simp [mdel]
  | cons p t ih =>
    obtain ⟨a, w⟩ := p
    by_cases ha : a = k
    · have haj : ¬ a = j := by rw [ha]; exact hk
      simp [mdel, mget, ha, haj, hk, ih]
    · by_cases haj : a = j <;> simp [mdel, mget, ha, haj, h, ih]

theorem mget_mdel_some (m : List (String × V)) (k j : String) (w : V)
    (h : mget (mdel m k) j = some w) : mget m j = some w := by
  by_cases hjk : j = k
  · subst hjk
    rw [mget_mdel_self] at h
    exact absurd h (by simp)
  · rwa [mget_mdel_ne m k j hjk] at h

theorem length_mdel_le (m : List (String × V)) (k : String) :
    (mdel m k).length ≤ m.length := by
  induction m with
  | nil => simp [mdel]
  | cons p t ih =>
    obtain ⟨a, w⟩ := p
    by_cases ha : a = k
    · simp only [mdel, if_pos ha, List.length_cons]
      exact Nat.le_succ_of_le ih
    · simp only [mdel, if_neg ha, List.length_cons]
      exact Nat.succ_le_succ ih

theorem mdel_of_mget_none (m : List (String × V)) (k : String)
    (h : mget m k = none) : mdel m k = m := by
  induction m with
  | nil => rfl
  | cons p t ih =>
    obtain ⟨a, w⟩ := p
    by_cases ha : a = k
    · simp [mget, ha] at h
    · simp only [mget, if_neg ha] at h
      simp [mdel, ha, ih h]

end MapLemmas

namespace HybridStorage

variable {V : Type}

theorem evictOne_eq_nil (s : HybridStorage V) (h : s.lruList = []) :
    evictOne s = s := by
  unfold evictOne
  rw [h]

theorem evictOne_eq_cons (s : HybridStorage V) (a : String) (t : List String)
    (h : s.lruList = a :: t) :
    evictOne s =
      if a = "" then s
      else { s with cache := mdel s.cache a
                    cacheTimestamps := mdel s.cacheTimestamps a
                    lruList := t } := by
  unfold evictOne
  rw [h]

theorem evictOne_db (s : HybridStorage V) : (evictOne s).db = s.db := by
  rcases hl : s.lruList with _ | ⟨a, t⟩
  · rw [evictOne_eq_nil s hl]
  · rw [evictOne_eq_cons s a t hl]
    by_cases ha : a = "" <;> simp [ha]

theorem evictOne_isOpen (s : HybridStorage V) :
    (evictOne s).isOpen = s.isOpen := by
  rcases hl : s.lruList with _ | ⟨a, t⟩
  · rw [evictOne_eq_nil s hl]
  · rw [evictOne_eq_cons s a t hl]
    by_cases ha : a = "" <;> simp [ha]

theorem evictOne_cacheSize (s : HybridStorage V) :
    (evictOne s).cacheSize = s.cacheSize := by
  rcases hl : s.lruList with _ | ⟨a, t⟩
  · rw [evictOne_eq_nil s hl]
  · rw [evictOne_eq_cons s a t hl]
    by_cases ha : a = "" <;> simp [ha]

theorem mget_evictOne_cache (s : HybridStorage V) (j : String) (w : V)
    (h : mget (evictOne s).cache j = some w) : mget s.cache j = some w := by
  rcases hl : s.lruList with _ | ⟨a, t⟩
  · rwa [evictOne_eq_nil s hl] at h
  · rw [evictOne_eq_cons s a t hl] at h
    by_cases ha : a = ""
    · rwa [if_pos ha] at h
    · rw [if_neg ha] at h
      exact mget_mdel_some _ _ _ _ h

end HybridStorage

namespace HybridStorage

variable {V : Type}

theorem verifyDbOpen_open {s : HybridStorage V} (h : s.isOpen = true) :
    verifyDbOpen s = .ok () := by
  simp [verifyDbOpen, h]

theorem verifyDbOpen_closed {s : HybridStorage V} (h : s.isOpen = false) :
    verifyDbOpen s = .error .closedError := by
  simp [verifyDbOpen, h]

theorem put_of_closed {s : HybridStorage V} (h : s.isOpen = false)
    (k : String) (v : V) (now : Nat) (f : Bool) :
    put s k v now f = (.error .closedError, s, []) := by
  unfold put
  rw [verifyDbOpen_closed h]

theorem get_of_closed {s : HybridStorage V} (h : s.isOpen = false)
    (k : String) (now : Nat) (f : Bool) :
    get s k now f = (.error .closedError, s, []) := by
  unfold get
  rw [verifyDbOpen_closed h]

theorem delete_of_closed {s : HybridStorage V} (h : s.isOpen = false)
    (k : String) (f : Bool) :
    delete s k f = (.error .closedError, s, []) := by
  unfold delete
  rw [verifyDbOpen_closed h]

theorem has_of_closed {s : HybridStorage V} (h : s.isOpen = false)
    (k : String) (now : Nat) (f : Bool) :
    has s k now f = (.error .closedError, s, []) := by
  unfold has
  rw [verifyDbOpen_closed h]

theorem keys_of_closed {s : HybridStorage V} (h : s.isOpen = false)
    (f : Bool) :
    keys s f = (.error .closedError, s, []) := by
  unfold keys
  rw [verifyDbOpen_closed h]

theorem close_false_isOpen (s : HybridStorage V) :
    ((close s false).2.1).isOpen = false := by
  unfold close
  cases hs : s.isOpen <;> simp [hs]

theorem hasMiss_state (s : HybridStorage V) (k : String) (f : Bool) :
    (hasMiss s k f).2.1 = s := by
  unfold hasMiss
  cases f
  · rcases hd : mget s.db k with _ | v <;> simp [hd]
  · simp

end HybridStorage

namespace HybridStorage

variable {V : Type}

/-- C5: a `get` on an open store whose cached entry for the key is fresh
(`now - cachedAt ≤ ttl`) returns the cached value with no engine call,
moves the key to the most-recently-used tail of the recency order, and
resets the entry's timestamp to `now` (sliding TTL); cache contents and
the persistent store are untouched. -/
theorem get_fresh_hit (s : HybridStorage V) (k : String) (v : V)
    (ts now : Nat) (f : Bool)
    (hopen : s.isOpen = true) (hc : mget s.cache k = some v)
    (hts : mget s.cacheTimestamps k = some ts) (hfresh : now - ts ≤ s.ttl) :
    get s k now f =
      (.ok v,
       { s with cacheTimestamps := mset s.cacheTimestamps k now
                lruList := lerase s.lruList k ++ [k] },
       []) := by
  have hf : freshAt s k now = true := by
    unfold freshAt
    rw [hts]
    exact decide_eq_true hfresh
  unfold get
  rw [verifyDbOpen_open hopen]
  simp only [hc, hf, if_true]

theorem get_fresh_hit_witness :
    (sampleStore.isOpen = true ∧ mget sampleStore.cache "a" = some 7 ∧
      mget sampleStore.cacheTimestamps "a" = some 10 ∧
      50 - 10 ≤ sampleStore.ttl) ∧
    get sampleStore "a" 50 true =
      (.ok 7,
       { sampleStore with
           cacheTimestamps := mset sampleStore.cacheTimestamps "a" 50
           lruList := lerase sampleStore.lruList "a" ++ ["a"] },
       []) :=
  ⟨by decide,
   get_fresh_hit sampleStore "a" 7 10 50 true (by decide) (by decide)
     (by decide) (by decide)⟩

/-- C6: `delete` of a key absent from the persistent store succeeds on an
open store (the engine's delete of a missing key is a no-op, so no "not
found" is ever raised to the caller); the persistent store is unchanged and
only the cache structures lose the key. -/
theorem delete_absent_ok (s : HybridStorage V) (k : String)
    (hopen : s.isOpen = true) (habsent : mget s.db k = none) :
    delete s k false = (.ok (), removeFromCache s k, [.delCall k]) := by
  unfold delete
  rw [verifyDbOpen_open hopen]
  simp only [Bool.false_eq_true, if_false]
  have hdb : mdel (removeFromCache s k).db k = (removeFromCache s k).db :=
    mdel_of_mget_none _ _ habsent
  rw [hdb]

theorem delete_absent_ok_witness :
    (sampleStore.isOpen = true ∧ mget sampleStore.db "zz" = none) ∧
    delete sampleStore "zz" false =
      (.ok (), removeFromCache sampleStore "zz", [.delCall "zz"]) :=
  ⟨by decide, delete_absent_ok sampleStore "zz" (by decide) (by decide)⟩

/-- C7: once `close` has completed, every public operation (`get`, `put`,
`delete`, `has`, `keys`) fails with the closed-store error — a constructor
distinct from the I/O-failure error — leaving the state untouched and
making no persistent-engine call (empty trace). -/
theorem closed_fail_fast (s : HybridStorage V) (k : String) (v : V)
    (now : Nat) (f : Bool) :
    get ((close s false).2.1) k now f =
      (.error .closedError, (close s false).2.1, []) ∧
    put ((close s false).2.1) k v now f =
      (.error .closedError, (close s false).2.1, []) ∧
    delete ((close s false).2.1) k f =
      (.error .closedError, (close s false).2.1, []) ∧
    has ((close s false).2.1) k now f =
      (.error .closedError, (close s false).2.1, []) ∧
    keys ((close s false).2.1) f =
      (.error .closedError, (close s false).2.1, []) ∧
    StorageError.closedError ≠ StorageError.ioFailure := by
  have h := close_false_isOpen s
  exact ⟨get_of_closed h k now f, put_of_closed h k v now f,
    delete_of_closed h k f, has_of_closed h k now f, keys_of_closed h f,
    by simp⟩

/-- C9: `has` never admits an entry into the cache: whatever the state, key,
time, and engine outcome, the cache after `has` holds no more entries than
before (it can only shrink, by removing a stale entry for the key). -/
theorem has_no_cache_admission (s : HybridStorage V) (k : String)
    (now : Nat) (f : Bool) :
    ((has s k now f).2.1).cache.length ≤ s.cache.length := by
  cases hs : s.isOpen
  · rw [has_of_closed hs]
  · unfold has
    rw [verifyDbOpen_open hs]
    rcases hc : mget s.cache k with _ | v
    · simp [hc, hasMiss_state]
    · cases hf : freshAt s k now
      · simp only [hc, hf, if_false, Bool.false_eq_true, hasMiss_state]
        exact length_mdel_le _ _
      · simp [hc, hf]

/-- C10: `put` invoked on a closed store throws the closed-store error and
returns the state exactly as it was — the open-state check precedes the
cache update, so the cache, timestamp map, and recency list are not
polluted with the key — and no engine call is made. -/
theorem put_closed_no_mutation (s : HybridStorage V) (k : String) (v : V)
    (now : Nat) (f : Bool) (hclosed : s.isOpen = false) :
    put s k v now f = (.error .closedError, s, []) :=
  put_of_closed hclosed k v now f

theorem put_closed_no_mutation_witness :
    (sampleClosedStore.isOpen = false) ∧
    put sampleClosedStore "k" (5 : Nat) 3 true =
      (.error .closedError, sampleClosedStore, []) :=
  ⟨by decide, put_closed_no_mutation sampleClosedStore "k" 5 3 true (by decide)⟩

end HybridStorage

namespace HybridStorage

variable {V : Type}

/-- C8 counterexample: supplying the numeric override `0` for `cacheSize`
and `ttl` does not make the instance's `cacheSize`/`ttl` equal the caller's
override — `options.cacheSize || 1000` treats `0` as falsy, so construction
succeeds with the defaults `1000` and `3600000` instead of `0`. -/
theorem construct_zero_override_counterexample :
    construct { dbPath := some "p", cacheSize := some 0, ttl := some 0 }
        ([] : List (String × Nat)) =
      .ok { dbPath := "p"
            cacheSize := 1000
            ttl := 3600000
            cache := []
            cacheTimestamps := []
            lruList := []
            db := []
            isOpen := true } ∧
    (1000 : Nat) ≠ 0 ∧ (3600000 : Nat) ≠ 0 := by
  refine ⟨?_, by decide, by decide⟩
  rfl

/-- C8 amended: construction fails synchronously with the configuration
error if and only if the persistent-store location is absent or the empty
string; on success, `cacheSize` is the caller's override when a nonzero one
is supplied and 1000 otherwise (a zero override falls back to the default,
as `||` treats 0 as falsy), and likewise `ttl` with default 3600000 ms. -/
theorem construct_contract (options : StorageOptions)
    (dbInit : List (String × V)) :
    ((∃ e, construct options dbInit = .error e) ↔
      (options.dbPath = none ∨ options.dbPath = some "")) ∧
    (∀ s, construct options dbInit = .ok s →
      s.cacheSize = (match options.cacheSize with
                     | none => 1000
                     | some n => if n = 0 then 1000 else n) ∧
      s.ttl = (match options.ttl with
               | none => 3600000
               | some n => if n = 0 then 3600000 else n) ∧
      s.isOpen = true ∧ s.cache = [] ∧ s.db = dbInit) := by
  obtain ⟨dp, cs, tt⟩ := options
  rcases dp with _ | p
  · constructor
    · simp [construct]
    · intro s hs
      simp [construct] at hs
  · by_cases hp : p = ""
    · constructor
      · simp [construct, hp]
      · intro s hs
        simp [construct, hp] at hs
    · constructor
      · simp [construct, hp]
      · intro s hs
        unfold construct at hs
        dsimp only at hs
        rw [if_neg hp] at hs
        simp only [Except.ok.injEq] at hs
        subst hs
        refine ⟨?_, ?_, rfl, rfl, rfl⟩
        · cases cs <;> rfl
        · cases tt <;> rfl

theorem construct_contract_witness :
    ((∃ e, construct { dbPath := some "x", cacheSize := some 7, ttl := none }
        ([] : List (String × Nat)) = .error e) ↔
      (({ dbPath := some "x", cacheSize := some 7, ttl := none }
          : StorageOptions).dbPath = none ∨
       ({ dbPath := some "x", cacheSize := some 7, ttl := none }
          : StorageOptions).dbPath = some "")) ∧
    (∀ s, construct { dbPath := some "x", cacheSize := some 7, ttl := none }
        ([] : List (String × Nat)) = .ok s →
      s.cacheSize = 7 ∧ s.ttl = 3600000 ∧ s.isOpen = true ∧
      s.cache = [] ∧ s.db = []) :=
  construct_contract { dbPath := some "x", cacheSize := some 7, ttl := none } []

end HybridStorage

namespace HybridStorage

/-- C1: the capacity invariant fails on the code for the empty-string key.
With `cacheSize = 1`, after `put "" 0` the empty key is the LRU head; the
guard `if (lruKey)` in `addToCache` is falsy for `""`, so the next
`put "k" 1` admits a second entry without evicting and the cache holds two
entries, exceeding `cacheSize = 1`. -/
theorem capacity_violation_empty_key :
    construct { dbPath := some "p", cacheSize := some 1, ttl := none }
        ([] : List (String × Nat)) =
      .ok { dbPath := "p", cacheSize := 1, ttl := 3600000, cache := [],
            cacheTimestamps := [], lruList := [], db := [], isOpen := true } ∧
    (run { dbPath := "p", cacheSize := 1, ttl := 3600000, cache := [],
           cacheTimestamps := [], lruList := [], db := [], isOpen := true }
        [Op.put "" 0 0 false, Op.put "k" 1 1 false]).cache =
      [("", 0), ("k", 1)] ∧
    (run { dbPath := "p", cacheSize := 1, ttl := 3600000, cache := [],
           cacheTimestamps := [], lruList := [], db := [], isOpen := true }
        [Op.put "" 0 0 false, Op.put "k" 1 1 false]).cacheSize = 1 :=
  ⟨rfl, rfl, rfl⟩

/-- C2 counterexample: with `cacheSize = 2` and `k1` the empty string, the
third `put` evicts nothing — the falsy `if (lruKey)` guard skips the
eviction of the LRU head `""` — so `k1` stays cached and the cache grows to
three entries, contradicting "evicts exactly k1". -/
theorem lru_order_empty_key_counterexample :
    (run { dbPath := "p", cacheSize := 2, ttl := 100, cache := [],
           cacheTimestamps := [], lruList := [], db := [], isOpen := true }
        [Op.put "" 1 0 false, Op.put "b" 2 1 false,
         Op.put "c" 3 2 false]).cache =
      [("", 1), ("b", 2), ("c", 3)] :=
  rfl

end HybridStorage

namespace HybridStorage

variable {V : Type}

/-- C2 amended: with `cacheSize = 2` and distinct keys whose first two are
nonempty (so the falsy `if (lruKey)` eviction guard does not trigger),
`put k1; put k2; put k3` evicts exactly `k1`, leaving `k2, k3` cached, and
a subsequent `get k1` succeeds via the persistent engine (one engine read),
re-admitting `k1` and evicting `k2`, the least recently used at that point,
so exactly `k3` and `k1` remain cached. -/
theorem lru_order (k1 k2 k3 : String) (v1 v2 v3 : V) (dp : String)
    (t n1 n2 n3 n4 : Nat)
    (h12 : k1 ≠ k2) (h13 : k1 ≠ k3) (h23 : k2 ≠ k3)
    (h1 : k1 ≠ "") (h2 : k2 ≠ "") :
    (run { dbPath := dp, cacheSize := 2, ttl := t, cache := [],
           cacheTimestamps := [], lruList := [], db := [], isOpen := true }
        [Op.put k1 v1 n1 false, Op.put k2 v2 n2 false,
         Op.put k3 v3 n3 false]).cache = [(k2, v2), (k3, v3)] ∧
    get (run { dbPath := dp, cacheSize := 2, ttl := t, cache := [],
               cacheTimestamps := [], lruList := [], db := [],
               isOpen := true }
          [Op.put k1 v1 n1 false, Op.put k2 v2 n2 false,
           Op.put k3 v3 n3 false]) k1 n4 false =
      (.ok v1,
       { dbPath := dp, cacheSize := 2, ttl := t,
         cache := [(k3, v3), (k1, v1)],
         cacheTimestamps := [(k3, n3), (k1, n4)],
         lruList := [k3, k1],
         db := [(k1, v1), (k2, v2), (k3, v3)], isOpen := true },
       [.getCall k1]) := by
  have h21 : ¬ k2 = k1 := fun hh => h12 hh.symm
  have h31 : ¬ k3 = k1 := fun hh => h13 hh.symm
  have h32 : ¬ k3 = k2 := fun hh => h23 hh.symm
  have hrun :
      run { dbPath := dp, cacheSize := 2, ttl := t, cache := [],
            cacheTimestamps := [], lruList := [], db := [], isOpen := true }
          [Op.put k1 v1 n1 false, Op.put k2 v2 n2 false,
           Op.put k3 v3 n3 false] =
        { dbPath := dp, cacheSize := 2, ttl := t,
          cache := [(k2, v2), (k3, v3)],
          cacheTimestamps := [(k2, n2), (k3, n3)],
          lruList := [k2, k3],
          db := [(k1, v1), (k2, v2), (k3, v3)], isOpen := true } := by
    simp [run, step, put, verifyDbOpen, addToCache, evictOne, mset, mget,
      mdel, mhas, lerase, h12, h13, h23, h21, h31, h32, h1, h2]
  rw [hrun]
  refine ⟨rfl, ?_⟩
  simp [get, getMiss, verifyDbOpen, evictOne, freshAt, mset, mget, mdel,
    mhas, lerase, h12, h13, h23, h21, h31, h32, h1, h2]

theorem lru_order_witness :
    ((run { dbPath := "p", cacheSize := 2, ttl := 100, cache := [],
            cacheTimestamps := [], lruList := [], db := [], isOpen := true }
        [Op.put "a" (1 : Nat) 0 false, Op.put "b" 2 1 false,
         Op.put "c" 3 2 false]).cache = [("b", 2), ("c", 3)] ∧
     get (run { dbPath := "p", cacheSize := 2, ttl := 100, cache := [],
                cacheTimestamps := [], lruList := [], db := [],
                isOpen := true }
          [Op.put "a" (1 : Nat) 0 false, Op.put "b" 2 1 false,
           Op.put "c" 3 2 false]) "a" 3 false =
      (.ok 1,
       { dbPath := "p", cacheSize := 2, ttl := 100,
         cache := [("c", 3), ("a", 1)],
         cacheTimestamps := [("c", 2), ("a", 3)],
         lruList := ["c", "a"],
         db := [("a", 1), ("b", 2), ("c", 3)], isOpen := true },
       [.getCall "a"])) :=
  lru_order "a" "b" "c" 1 2 3 "p" 100 0 1 2 3 (by decide) (by decide)
    (by decide) (by decide) (by decide)

end HybridStorage

namespace HybridStorage

variable {V : Type}

theorem addToCache_db (s : HybridStorage V) (k : String) (v : V) (now : Nat) :
    (addToCache s k v now).db = s.db := by
  by_cases hc : (s.cacheSize ≤ s.cache.length ∧ mhas s.cache k = false)
  · simp [addToCache, hc, evictOne_db]
  · simp [addToCache, hc]

theorem addToCache_isOpen (s : HybridStorage V) (k : String) (v : V)
    (now : Nat) : (addToCache s k v now).isOpen = s.isOpen := by
  by_cases hc : (s.cacheSize ≤ s.cache.length ∧ mhas s.cache k = false)
  · simp [addToCache, hc, evictOne_isOpen]
  · simp [addToCache, hc]

theorem mget_addToCache_self (s : HybridStorage V) (k : String) (v : V)
    (now : Nat) : mget (addToCache s k v now).cache k = some v := by
  by_cases hc : (s.cacheSize ≤ s.cache.length ∧ mhas s.cache k = false)
  · simp [addToCache, hc, mget_mset_self]
  · simp [addToCache, hc, mget_mset_self]

theorem mget_addToCache_ne (s : HybridStorage V) (j k : String) (w : V)
    (now : Nat) (u : V) (hjk : j ≠ k)
    (h : mget (addToCache s j w now).cache k = some u) :
    mget s.cache k = some u := by
  have hkj : k ≠ j := fun hh => hjk hh.symm
  by_cases hc : (s.cacheSize ≤ s.cache.length ∧ mhas s.cache j = false)
  · simp only [addToCache, hc, if_pos] at h
    rw [mget_mset_ne _ _ _ _ hkj] at h
    exact mget_evictOne_cache _ _ _ h
  · simp only [addToCache, hc, if_neg, if_false] at h
    rwa [mget_mset_ne _ _ _ _ hkj] at h

theorem put_open_eq {s : HybridStorage V} (hopen : s.isOpen = true)
    (k : String) (v : V) (now : Nat) :
    put s k v now false =
      (.ok (),
       { addToCache s k v now with
           db := mset (addToCache s k v now).db k v },
       [.putCall k]) := by
  unfold put
  rw [verifyDbOpen_open hopen]
  rfl

theorem put_open_fail_eq {s : HybridStorage V} (hopen : s.isOpen = true)
    (k : String) (v : V) (now : Nat) :
    put s k v now true =
      (.error .ioFailure, addToCache s k v now, [.putCall k]) := by
  unfold put
  rw [verifyDbOpen_open hopen]
  rfl

theorem keys_state (s : HybridStorage V) (f : Bool) :
    (keys s f).2.1 = s := by
  cases hs : s.isOpen
  · rw [keys_of_closed hs]
  · unfold keys
    rw [verifyDbOpen_open hs]
    cases f <;> rfl

theorem has_state (s : HybridStorage V) (k : String) (now : Nat) (f : Bool) :
    (has s k now f).2.1 = s ∨ (has s k now f).2.1 = removeFromCache s k := by
  cases hs : s.isOpen
  · rw [has_of_closed hs]
    exact Or.inl rfl
  · unfold has
    rw [verifyDbOpen_open hs]
    rcases hc : mget s.cache k with _ | v
    · simp [hc, hasMiss_state]
    · cases hf : freshAt s k now
      · simp [hc, hf, hasMiss_state]
      · simp [hc, hf]

theorem keyInv_removeFromCache {k : String} {v : V} {s : HybridStorage V}
    (h : keyInv k v s) (j : String) : keyInv k v (removeFromCache s j) := by
  obtain ⟨hopen, hdb, hcache⟩ := h
  refine ⟨hopen, hdb, ?_⟩
  intro w hw
  exact hcache w (mget_mdel_some _ _ _ _ hw)

theorem keyInv_getMiss {k : String} {v : V} {s : HybridStorage V}
    (h : keyInv k v s) (j : String) (now : Nat) (f : Bool) :
    keyInv k v (getMiss s j now f).2.1 := by
  obtain ⟨hopen, hdb, hcache⟩ := h
  unfold getMiss
  cases f
  · rcases hd : mget s.db j with _ | w
    · simp only [Bool.false_eq_true, if_false, hd]
      exact ⟨hopen, hdb, hcache⟩
    · simp only [Bool.false_eq_true, if_false, hd]
      by_cases hcap : s.cacheSize ≤ s.cache.length
      · refine ⟨?_, ?_, ?_⟩
        · simp [hcap, evictOne_isOpen, hopen]
        · simp [hcap, evictOne_db, hdb]
        · intro u hu
          simp only [hcap, if_pos] at hu
          by_cases hjk : j = k
          · subst hjk
            rw [mget_mset_self] at hu
            rw [hd] at hdb
            cases hu
            exact (Option.some.injEq _ _).mp hdb
          · rw [mget_mset_ne _ _ _ _ (fun hh => hjk hh.symm)] at hu
            exact hcache u (mget_evictOne_cache _ _ _ hu)
      · refine ⟨?_, ?_, ?_⟩
        · simp [hcap, hopen]
        · simp [hcap, hdb]
        · intro u hu
          simp only [hcap, if_neg, if_false] at hu
          by_cases hjk : j = k
          · subst hjk
            rw [mget_mset_self] at hu
            rw [hd] at hdb
            cases hu
            exact (Option.some.injEq _ _).mp hdb
          · rw [mget_mset_ne _ _ _ _ (fun hh => hjk hh.symm)] at hu
            exact hcache u hu
  · simp only [if_pos]
    exact ⟨hopen, hdb, hcache⟩

end HybridStorage

namespace HybridStorage

variable {V : Type}

theorem keyInv_put {k : String} {v : V} {s : HybridStorage V}
    (h : keyInv k v s) (j : String) (w : V) (now : Nat) (f : Bool)
    (hjk : j ≠ k) : keyInv k v (put s j w now f).2.1 := by
  obtain ⟨hopen, hdb, hcache⟩ := h
  have hkj : k ≠ j := fun hh => hjk hh.symm
  cases f
  · rw [put_open_eq hopen]
    refine ⟨?_, ?_, ?_⟩
    · show (addToCache s j w now).isOpen = true
      rw [addToCache_isOpen]
      exact hopen
    · show mget (mset (addToCache s j w now).db j w) k = some v
      rw [addToCache_db, mget_mset_ne _ _ _ _ hkj]
      exact hdb
    · intro u hu
      exact hcache u (mget_addToCache_ne s j k w now u hjk hu)
  · rw [put_open_fail_eq hopen]
    refine ⟨?_, ?_, ?_⟩
    · show (addToCache s j w now).isOpen = true
      rw [addToCache_isOpen]
      exact hopen
    · show mget (addToCache s j w now).db k = some v
      rw [addToCache_db]
      exact hdb
    · intro u hu
      exact hcache u (mget_addToCache_ne s j k w now u hjk hu)

theorem keyInv_get {k : String} {v : V} {s : HybridStorage V}
    (h : keyInv k v s) (j : String) (now : Nat) (f : Bool) :
    keyInv k v (get s j now f).2.1 := by
  obtain ⟨hopen, hdb, hcache⟩ := h
  unfold get
  rw [verifyDbOpen_open hopen]
  rcases hc : mget s.cache j with _ | w
  · exact keyInv_getMiss ⟨hopen, hdb, hcache⟩ j now f
  · cases hf : freshAt s j now
    · simp only [hf, Bool.false_eq_true, if_false]
      exact keyInv_getMiss
        (keyInv_removeFromCache ⟨hopen, hdb, hcache⟩ j) j now f
    · simp only [hf, if_true]
      exact ⟨hopen, hdb, hcache⟩

theorem keyInv_delete {k : String} {v : V} {s : HybridStorage V}
    (h : keyInv k v s) (j : String) (f : Bool) (hjk : j ≠ k) :
    keyInv k v (delete s j f).2.1 := by
  obtain ⟨hopen, hdb, hcache⟩ := h
  have hkj : k ≠ j := fun hh => hjk hh.symm
  unfold delete
  rw [verifyDbOpen_open hopen]
  cases f
  · refine ⟨hopen, ?_, ?_⟩
    · show mget (mdel (removeFromCache s j).db j) k = some v
      rw [mget_mdel_ne _ _ _ hkj]
      exact hdb
    · intro u hu
      exact hcache u (mget_mdel_some _ _ _ _ hu)
  · exact ⟨hopen, hdb, fun u hu => hcache u (mget_mdel_some _ _ _ _ hu)⟩

theorem keyInv_has {k : String} {v : V} {s : HybridStorage V}
    (h : keyInv k v s) (j : String) (now : Nat) (f : Bool) :
    keyInv k v (has s j now f).2.1 := by
  rcases has_state s j now f with hst | hst <;> rw [hst]
  · exact h
  · exact keyInv_removeFromCache h j

theorem keyInv_step {k : String} {v : V} {s : HybridStorage V} (op : Op V)
    (hav : avoids k op = true) (h : keyInv k v s) :
    keyInv k v (step s op) := by
  cases op with
  | put j w now f =>
    simp only [avoids, decide_eq_true_eq] at hav
    exact keyInv_put h j w now f hav
  | get j now f => exact keyInv_get h j now f
  | del j f =>
    simp only [avoids, decide_eq_true_eq] at hav
    exact keyInv_delete h j f hav
  | has j now f => exact keyInv_has h j now f
  | keys f =>
    show keyInv k v (keys s f).2.1
    rw [keys_state]
    exact h
  | close f => simp [avoids] at hav

theorem keyInv_run {k : String} {v : V} (ops : List (Op V))
    {s : HybridStorage V}
    (hav : ∀ op ∈ ops, avoids k op = true) (h : keyInv k v s) :
    keyInv k v (run s ops) := by
  induction ops generalizing s with
  | nil => exact h
  | cons op rest ih =>
    exact ih (fun o ho => hav o (List.mem_cons_of_mem op ho))
      (keyInv_step op (hav op (List.mem_cons_self op rest)) h)

theorem get_result_of_keyInv {k : String} {v : V} {s : HybridStorage V}
    (h : keyInv k v s) (now : Nat) : (get s k now false).1 = .ok v := by
  obtain ⟨hopen, hdb, hcache⟩ := h
  unfold get
  rw [verifyDbOpen_open hopen]
  rcases hc : mget s.cache k with _ | w
  · unfold getMiss
    simp only [Bool.false_eq_true, if_false, hdb]
  · have hw : w = v := hcache w hc
    subst hw
    cases hf : freshAt s k now
    · simp only [hf, Bool.false_eq_true, if_false]
      unfold getMiss
      simp only [Bool.false_eq_true, if_false, removeFromCache, hdb]
    · simp only [hf, if_true]

end HybridStorage

namespace HybridStorage

variable {V : Type}

/-- C3: after a successful `put k v` on an open store, `get k` returns `v`
after any further sequence of operations that do not write or delete `k`
and do not close the store — even if those operations evicted or expired
the cache entry for `k` — because the value is read back from the
persistent engine. -/
theorem write_through_get (s : HybridStorage V) (k : String) (v : V)
    (now now2 : Nat) (ops : List (Op V))
    (hopen : s.isOpen = true)
    (hav : ∀ op ∈ ops, avoids k op = true) :
    (put s k v now false).1 = .ok () ∧
    (get (run (put s k v now false).2.1 ops) k now2 false).1 = .ok v := by
  have hres : (put s k v now false).1 = .ok () := by
    rw [put_open_eq hopen]
  have hinv : keyInv k v (put s k v now false).2.1 := by
    rw [put_open_eq hopen]
    refine ⟨?_, ?_, ?_⟩
    · show (addToCache s k v now).isOpen = true
      rw [addToCache_isOpen]
      exact hopen
    · show mget (mset (addToCache s k v now).db k v) k = some v
      exact mget_mset_self _ _ _
    · intro u hu
      have hu2 : mget (addToCache s k v now).cache k = some u := hu
      rw [mget_addToCache_self] at hu2
      exact ((Option.some.injEq _ _).mp hu2).symm
  exact ⟨hres, get_result_of_keyInv (keyInv_run ops hav hinv) now2⟩

theorem write_through_get_witness :
    (sampleStore.isOpen = true ∧
      ∀ op ∈ ([Op.put "j" (4 : Nat) 5 false, Op.get "k" 6 true,
               Op.put "i" 11 6 false, Op.get "i" 7 false,
               Op.del "j" false, Op.has "k" 7 true,
               Op.keys false] : List (Op Nat)),
        avoids "k" op = true) ∧
    ((put sampleStore "k" (9 : Nat) 5 false).1 = .ok () ∧
     (get (run (put sampleStore "k" (9 : Nat) 5 false).2.1
          [Op.put "j" (4 : Nat) 5 false, Op.get "k" 6 true,
           Op.put "i" 11 6 false, Op.get "i" 7 false,
           Op.del "j" false, Op.has "k" 7 true,
           Op.keys false]) "k" 8 false).1 = .ok 9) :=
  ⟨by decide,
   write_through_get sampleStore "k" 9 5 8
     [Op.put "j" (4 : Nat) 5 false, Op.get "k" 6 true,
      Op.put "i" 11 6 false, Op.get "i" 7 false,
      Op.del "j" false, Op.has "k" 7 true, Op.keys false]
     (by decide) (by decide)⟩

end HybridStorage

namespace HybridStorage

variable {V : Type}

theorem construct_cache_nil {options : StorageOptions}
    {dbInit : List (String × V)} {s : HybridStorage V}
    (h : construct options dbInit = .ok s) : s.cache = [] := by
  unfold construct at h
  rcases hd : options.dbPath with _ | p <;> rw [hd] at h <;> dsimp only at h
  · simp at h
  · by_cases hp : p = ""
    · rw [if_pos hp] at h
      simp at h
    · rw [if_neg hp] at h
      simp only [Except.ok.injEq] at h
      rw [← h]

theorem cacheSubDb_removeFromCache {s : HybridStorage V}
    (h : cacheSubDb s) (k : String) : cacheSubDb (removeFromCache s k) := by
  intro j u hu
  exact h j u (mget_mdel_some _ _ _ _ hu)

theorem cacheSubDb_put {s : HybridStorage V} (h : cacheSubDb s)
    (k : String) (v : V) (now : Nat) :
    cacheSubDb (put s k v now false).2.1 := by
  cases hs : s.isOpen
  · rw [put_of_closed hs]
    exact h
  · rw [put_open_eq hs]
    intro j u hu
    have hu2 : mget (addToCache s k v now).cache j = some u := hu
    show mget (mset (addToCache s k v now).db k v) j = some u
    rw [addToCache_db]
    by_cases hjk : j = k
    · subst hjk
      rw [mget_mset_self]
      rw [mget_addToCache_self] at hu2
      exact hu2
    · rw [mget_mset_ne _ _ _ _ hjk]
      exact h j u (mget_addToCache_ne s k j v now u (fun hh => hjk hh.symm) hu2)

theorem cacheSubDb_getMiss {s : HybridStorage V} (h : cacheSubDb s)
    (k : String) (now : Nat) (f : Bool) :
    cacheSubDb (getMiss s k now f).2.1 := by
  unfold getMiss
  cases f
  · rcases hd : mget s.db k with _ | w
    · simp only [Bool.false_eq_true, if_false, hd]
      exact h
    · simp only [Bool.false_eq_true, if_false, hd]
      intro j u hu
      by_cases hcap : s.cacheSize ≤ s.cache.length
      · simp only [hcap, if_pos] at hu ⊢
        show mget (evictOne s).db j = some u
        rw [evictOne_db]
        by_cases hjk : j = k
        · subst hjk
          rw [mget_mset_self] at hu
          injection hu with hwu
          rw [← hwu]
          exact hd
        · rw [mget_mset_ne _ _ _ _ hjk] at hu
          exact h j u (mget_evictOne_cache _ _ _ hu)
      · simp only [hcap, if_neg, if_false] at hu ⊢
        by_cases hjk : j = k
        · subst hjk
          rw [mget_mset_self] at hu
          injection hu with hwu
          rw [← hwu]
          exact hd
        · rw [mget_mset_ne _ _ _ _ hjk] at hu
          exact h j u hu
  · simp only [if_pos]
    exact h

theorem cacheSubDb_get {s : HybridStorage V} (h : cacheSubDb s)
    (k : String) (now : Nat) (f : Bool) :
    cacheSubDb (get s k now f).2.1 := by
  cases hs : s.isOpen
  · rw [get_of_closed hs]
    exact h
  · unfold get
    rw [verifyDbOpen_open hs]
    rcases hc : mget s.cache k with _ | w
    · exact cacheSubDb_getMiss h k now f
    · cases hf : freshAt s k now
      · simp only [hf, Bool.false_eq_true, if_false]
        exact cacheSubDb_getMiss (cacheSubDb_removeFromCache h k) k now f
      · simp only [hf, if_true]
        exact h

theorem cacheSubDb_delete {s : HybridStorage V} (h : cacheSubDb s)
    (k : String) (f : Bool) : cacheSubDb (delete s k f).2.1 := by
  cases hs : s.isOpen
  · rw [delete_of_closed hs]
    exact h
  · unfold delete
    rw [verifyDbOpen_open hs]
    cases f
    · intro j u hu
      have hu2 : mget (mdel s.cache k) j = some u := hu
      show mget (mdel (removeFromCache s k).db k) j = some u
      by_cases hjk : j = k
      · subst hjk
        rw [mget_mdel_self] at hu2
        exact absurd hu2 (by simp)
      · rw [mget_mdel_ne _ _ _ hjk]
        exact h j u (mget_mdel_some _ _ _ _ hu2)
    · exact cacheSubDb_removeFromCache h k

theorem cacheSubDb_has {s : HybridStorage V} (h : cacheSubDb s)
    (k : String) (now : Nat) (f : Bool) :
    cacheSubDb (has s k now f).2.1 := by
  rcases has_state s k now f with hst | hst <;> rw [hst]
  · exact h
  · exact cacheSubDb_removeFromCache h k

theorem cacheSubDb_keys {s : HybridStorage V} (h : cacheSubDb s) (f : Bool) :
    cacheSubDb (keys s f).2.1 := by
  rw [keys_state]
  exact h

theorem cacheSubDb_close {s : HybridStorage V} (h : cacheSubDb s) (f : Bool) :
    cacheSubDb (close s f).2.1 := by
  unfold close
  cases hs : s.isOpen
  · simp only [hs, Bool.false_eq_true, if_false]
    exact h
  · cases f
    · simp only [hs, if_true, Bool.false_eq_true, if_false]
      intro j u hu
      simp [mget] at hu
    · simp only [hs, if_true]
      exact h

theorem reach_cacheSubDb {s : HybridStorage V} (h : Reach s) :
    cacheSubDb s := by
  induction h with
  | init options dbInit s hok =>
    intro j u hu
    rw [construct_cache_nil hok] at hu
    simp [mget] at hu
  | putStep s k v now hr ih => exact cacheSubDb_put ih k v now
  | getStep s k now f hr ih => exact cacheSubDb_get ih k now f
  | delStep s k f hr ih => exact cacheSubDb_delete ih k f
  | hasStep s k now f hr ih => exact cacheSubDb_has ih k now f
  | keysStep s f hr ih => exact cacheSubDb_keys ih f
  | closeStep s f hr ih => exact cacheSubDb_close ih f

end HybridStorage

namespace HybridStorage

variable {V : Type}

/-- C4 counterexample: a `put` whose persistent write fails leaves the key
present and fresh in the cache while the persistent store does not contain
it at all — the cache was updated before the engine write, with no
rollback — so the claimed invariant does not extend to states reached
through a failed persistent write. -/
theorem cache_fresh_without_db_counterexample :
    (put { dbPath := "p", cacheSize := 2, ttl := 100, cache := [],
           cacheTimestamps := [], lruList := [], db := [], isOpen := true }
        "k" (5 : Nat) 0 true).1 = .error .ioFailure ∧
    mget ((put { dbPath := "p", cacheSize := 2, ttl := 100, cache := [],
                 cacheTimestamps := [], lruList := [], db := [],
                 isOpen := true }
        "k" (5 : Nat) 0 true).2.1).cache "k" = some 5 ∧
    mget ((put { dbPath := "p", cacheSize := 2, ttl := 100, cache := [],
                 cacheTimestamps := [], lruList := [], db := [],
                 isOpen := true }
        "k" (5 : Nat) 0 true).2.1).cacheTimestamps "k" = some 0 ∧
    (0 : Nat) - 0 ≤ ((put { dbPath := "p", cacheSize := 2, ttl := 100,
                            cache := [], cacheTimestamps := [],
                            lruList := [], db := [], isOpen := true }
        "k" (5 : Nat) 0 true).2.1).ttl ∧
    mget ((put { dbPath := "p", cacheSize := 2, ttl := 100, cache := [],
                 cacheTimestamps := [], lruList := [], db := [],
                 isOpen := true }
        "k" (5 : Nat) 0 true).2.1).db "k" = none :=
  ⟨rfl, rfl, rfl, by decide, rfl⟩

/-- C4 amended: in every state reachable from construction by public
operations whose persistent writes all succeeded (`put` steps run with a
non-failing engine; `get`/`delete`/`has`/`keys`/`close` may fail freely),
a key present and fresh in the cache also exists in the persistent store
with the same value.  (A put whose persistent write failed breaks this
transiently, as the counterexample shows.) -/
theorem reach_cache_agrees_db (s : HybridStorage V) (k : String) (v : V)
    (ts now : Nat) (hreach : Reach s)
    (hc : mget s.cache k = some v)
    (hts : mget s.cacheTimestamps k = some ts)
    (hfresh : now - ts ≤ s.ttl) :
    mget s.db k = some v :=
  reach_cacheSubDb hreach k v hc

theorem reach_cache_agrees_db_witness :
    (mget ((put { dbPath := "p", cacheSize := 2, ttl := 100, cache := [],
                  cacheTimestamps := [], lruList := [], db := [],
                  isOpen := true }
        "k" (5 : Nat) 0 false).2.1).cache "k" = some 5 ∧
     mget ((put { dbPath := "p", cacheSize := 2, ttl := 100, cache := [],
                  cacheTimestamps := [], lruList := [], db := [],
                  isOpen := true }
        "k" (5 : Nat) 0 false).2.1).cacheTimestamps "k" = some 0 ∧
     (0 : Nat) - 0 ≤ ((put { dbPath := "p", cacheSize := 2, ttl := 100,
                             cache := [], cacheTimestamps := [],
                             lruList := [], db := [], isOpen := true }
        "k" (5 : Nat) 0 false).2.1).ttl) ∧
    mget ((put { dbPath := "p", cacheSize := 2, ttl := 100, cache := [],
                 cacheTimestamps := [], lruList := [], db := [],
                 isOpen := true }
        "k" (5 : Nat) 0 false).2.1).db "k" = some 5 :=
  ⟨by decide,
   reach_cache_agrees_db _ "k" 5 0 0
     (Reach.putStep _ "k" 5 0
       (Reach.init { dbPath := some "p", cacheSize := some 2,
                     ttl := some 100 } [] _ rfl))
     (by decide) (by decide) (by decide)⟩

end HybridStorage
